import Mathlib

/-
Verification of the concurrent-crawling core of the linkchecker repository.

The Python sources are embedded shallowly:

* `src/linkcheck/director/__init__.py` : `check_urls` is modelled as a
  trace-producing function over an oracle environment `Env` that supplies
  everything the orchestrator observes from its collaborators (whether the
  queue is empty at start, the outcome of each timed `urlqueue.join` call,
  and whether worker threads remain after each `remove_stopped_threads`).
  Calls made by `check_urls` are recorded as `Event`s; exceptions are
  explicit values of type `Exn`, so that whether an exception escapes the
  function is a computed fact of the embedding, not an assumption.
* `src/linkcheck/director/__init__.py` : `get_aggregate` is modelled with an
  explicit allocation counter standing for object identity, so freshness of
  the four per-run caches is expressible.
* `src/linkcheck/__init__.py` : `get_link_pat`, with `re.compile` modelled
  as an injective constructor tagging the pattern text.
* `src/linkcheck/optcomplete.py` : `extract_word` and `autocomplete`.
  Python strings are modelled as `List Char`.  External collaborators
  (the file system listing behind `AllCompleter`, the optparse option
  table, the result of `guess_first_nonoption`) are oracle inputs.
-/

namespace LinkCheck

/-- Outcome of one call to `aggregate.urlqueue.join(timeout=1)` inside the
drive loop of `check_urls` (director/__init__.py line 45): the join either
returns normally (outstanding count reached zero), raises
`linkcheck.cache.urlqueue.Timeout`, raises `KeyboardInterrupt`, or raises
some other unexpected exception. -/
inductive JoinResult
  | ok
  | timeout
  | interrupt
  | error
deriving DecidableEq

/-- Exceptions that can escape the drive loop to the handlers of
`check_urls` (the inner handler at line 47 already consumes `Timeout`). -/
inductive Exn
  | keyboardInterrupt
  | otherError
deriving DecidableEq

/-- Observable calls made by `check_urls` to its collaborators, in source
order: `logger.start_log_output()`, `aggregate.start_threads()`,
`urlqueue.join(timeout=1)`, `time.sleep(1)`,
`aggregate.remove_stopped_threads()`, `linkcheck.log.warn(...)`,
`aggregate.abort()`, `console.internal_error()`, `aggregate.finish()`,
`logger.end_log_output()`. -/
inductive Event
  | startLogOutput
  | startThreads
  | joinCall
  | sleep
  | removeStoppedThreads
  | warn
  | abort
  | internalError
  | finish
  | endLogOutput
deriving DecidableEq

/-- Oracle for everything `check_urls` observes: `emptyAtStart` is the value
of `aggregate.urlqueue.empty()` at line 39, `joinResult i` is the outcome of
the i-th `urlqueue.join(timeout=1)` call, and `threadsRemain i` is the truth
of `aggregate.threads` (non-empty thread list) after the i-th
`remove_stopped_threads()` call. -/
structure Env where
  emptyAtStart : Bool
  joinResult : Nat → JoinResult
  threadsRemain : Nat → Bool

/-- The `while True` drive loop of `check_urls` (lines 43-51).  Iteration i
calls `urlqueue.join(timeout=1)`; if it returns, `break`; on `Timeout` the
loop sleeps, calls `remove_stopped_threads()`, and breaks when no worker
threads remain; a `KeyboardInterrupt` or any other exception escapes the
loop.  The result is the list of events emitted inside the loop together
with the exception escaping it, if any; `none` means the supplied fuel did
not suffice to reach a loop exit (the loop is still running). -/
def loopRun (env : Env) : Nat → Nat → Option (List Event × Option Exn)
  | 0, _ => none
  | fuel + 1, i =>
    match env.joinResult i with
    | JoinResult.ok => some ([Event.joinCall], none)
    | JoinResult.interrupt => some ([Event.joinCall], some Exn.keyboardInterrupt)
    | JoinResult.error => some ([Event.joinCall], some Exn.otherError)
    | JoinResult.timeout =>
      if env.threadsRemain i then
        (loopRun env fuel (i + 1)).map
          (fun r => (Event.joinCall :: Event.sleep :: Event.removeStoppedThreads :: r.1, r.2))
      else
        some ([Event.joinCall, Event.sleep, Event.removeStoppedThreads], none)

/-- Events emitted by `check_urls` before the drive loop (lines 38-40):
`start_log_output()` always, then `start_threads()` exactly when the url
queue is non-empty. -/
def preEvents (env : Env) : List Event :=
  Event.startLogOutput :: (if env.emptyAtStart then [] else [Event.startThreads])

/-- Events emitted by the two exception handlers of `check_urls`
(lines 52-58): `except KeyboardInterrupt` logs a warning and calls
`abort()`; the bare `except` calls `console.internal_error()` and
`abort()`.  Neither handler re-raises. -/
def handlerEvents : Option Exn → List Event
  | none => []
  | some Exn.keyboardInterrupt => [Event.warn, Event.abort]
  | some Exn.otherError => [Event.internalError, Event.abort]

/-- Shallow embedding of `check_urls(aggregate)` (director/__init__.py
lines 31-60).  The try body emits the pre-loop events and runs the drive
loop; any escaping exception is consumed by the matching handler; then
`aggregate.finish()` and `logger.end_log_output()` run unconditionally
(lines 59-60).  The result is the full event trace paired with the
exception propagating out of `check_urls` to its caller; since both
handlers swallow their exception, that component is always `none` for the
embedded code.  `none` overall means the drive loop had not yet exited
within the given fuel. -/
def check_urls (env : Env) (fuel : Nat) : Option (List Event × Option Exn) :=
  (loopRun env fuel 0).map
    (fun r => (preEvents env ++ r.1 ++ handlerEvents r.2 ++ [Event.finish, Event.endLogOutput],
               (none : Option Exn)))

/-- The drive loop continues past iteration i exactly when `join` raised
`Timeout` there and worker threads remained after `remove_stopped_threads`. -/
def loopContinues (env : Env) (i : Nat) : Prop :=
  env.joinResult i = JoinResult.timeout ∧ env.threadsRemain i = true

/-- Environment for a run whose first `join` raises an unexpected
exception. -/
def envErr : Env :=
  { emptyAtStart := false
    joinResult := fun _ => JoinResult.error
    threadsRemain := fun _ => true }

/-- Environment for a run interrupted by `KeyboardInterrupt` at the first
`join`. -/
def envInt : Env :=
  { emptyAtStart := false
    joinResult := fun _ => JoinResult.interrupt
    threadsRemain := fun _ => true }

/-- Environment for a run whose workers have all died: `join` times out and
no threads remain. -/
def envDead : Env :=
  { emptyAtStart := false
    joinResult := fun _ => JoinResult.timeout
    threadsRemain := fun _ => false }

/-- Environment for a normal drained run. -/
def envOkRun : Env :=
  { emptyAtStart := false
    joinResult := fun _ => JoinResult.ok
    threadsRemain := fun _ => true }

/-- Environment for a no-op run: the queue is empty at start, and `join`
returns immediately because the outstanding count is already zero. -/
def envEmptyOk : Env :=
  { emptyAtStart := true
    joinResult := fun _ => JoinResult.ok
    threadsRemain := fun _ => true }

/-- Configuration as consumed by `get_aggregate`: only `config["wait"]` is
read (director/__init__.py line 68). -/
structure Config where
  wait : Bool
deriving DecidableEq

/-- Result of `get_aggregate` (director/__init__.py lines 63-72): an
`aggregator.Aggregate` holding the configuration and the four per-run
shared structures.  Python object identity is modelled by a `Nat` address,
so distinct addresses mean distinct objects. -/
structure Aggregate where
  config : Config
  urlqueue : Nat
  connections : Nat
  cookies : Nat
  robots_txt : Nat
deriving DecidableEq

/-- Shallow embedding of `get_aggregate(config)`: each of the four
constructor calls `UrlQueue()`, `ConnectionPool(wait=config["wait"])`,
`CookieJar()`, `RobotsTxt()` allocates a fresh object, modelled by drawing
the next address from an allocation counter; the advanced counter is
returned alongside the aggregate. -/
def get_aggregate (config : Config) (heap : Nat) : Aggregate × Nat :=
  ({ config := config
     urlqueue := heap
     connections := heap + 1
     cookies := heap + 2
     robots_txt := heap + 3 }, heap + 4)

/-- Result of `re.compile(pattern)` as used by `get_link_pat`: an opaque
compiled-regex value determined by its pattern text
(linkcheck/__init__.py line 56). -/
structure CompiledRe where
  source : List Char
deriving DecidableEq

/-- Embedding of `re.compile`. -/
def re_compile (s : List Char) : CompiledRe :=
  { source := s }

/-- The dictionary returned by `get_link_pat`
(linkcheck/__init__.py lines 55-59). -/
structure LinkPat where
  pattern : CompiledRe
  negate : Bool
  strict : Bool
deriving DecidableEq

/-- Shallow embedding of `get_link_pat(arg, strict=False)`
(linkcheck/__init__.py lines 46-59); Python strings are `List Char`, and
`arg[0:1] == '!'` is `arg.take 1 = ['!']`. -/
def get_link_pat (arg : List Char) (strict : Bool) : LinkPat :=
  if arg.take 1 = ['!'] then
    { pattern := re_compile (arg.drop 1), negate := true, strict := strict }
  else
    { pattern := re_compile arg, negate := false, strict := strict }

/-- `get_link_pat` called with the `strict` parameter left at its Python
default `False`. -/
def get_link_pat_default (arg : List Char) : LinkPat :=
  get_link_pat arg false

/-- The character class `[ \t]` compiled at optcomplete.py line 186:
`wsMatch c` is the truth of `wsre.match(c)`. -/
def wsMatch (c : Char) : Bool :=
  c = ' ' || c = '\t'

/-- The first scan of `extract_word` (optcomplete.py lines 191-196): walk
`preii` from `point - 1` leftwards over the line while the character is not
whitespace, then add one back.  The walk is over the reversed prefix
`line[0:point]`, with `k = preii + 1` so that the head of `revpre` is
`line[preii]`; the value returned is the final `preii + 1`, i.e. the start
index of the prefix. -/
def scanPreAux : List Char → Nat → Nat
  | [], _ => 0
  | c :: cs, k => if wsMatch c then k else scanPreAux cs (k - 1)

/-- The second scan of `extract_word` (optcomplete.py lines 198-202): walk
`sufii` rightwards from `point` while the character is not whitespace.  The
walk is over the remaining list `line[sufii:]`, and the final `sufii` is
returned. -/
def scanSufAux : List Char → Nat → Nat
  | [], i => i
  | c :: cs, i => if wsMatch c then i else scanSufAux cs (i + 1)

/-- Shallow embedding of `extract_word(line, point)`
(optcomplete.py lines 181-204).  Python slices `line[preii:point]` and
`line[point:sufii]` become `(line.take point).drop preii` and
`(line.take sufii).drop point`. -/
def extract_word (line : List Char) (point : Int) : List Char × List Char :=
  if point < 0 ∨ (line.length : Int) < point then ([], [])
  else
    let p := point.toNat
    let preii := scanPreAux ((line.take p).reverse) p
    let sufii := scanSufAux (line.drop p) p
    ((line.take p).drop preii, (line.take sufii).drop p)

/-- Specification-side definition: the maximal whitespace-free suffix of a
list, i.e. the reversed longest run of non-whitespace characters at its
right end. -/
def wordSuffixBefore (l : List Char) : List Char :=
  (l.reverse.takeWhile (fun c => !wsMatch c)).reverse

/-- Specification-side definition: the maximal whitespace-free prefix of a
list. -/
def wordPrefixAfter (l : List Char) : List Char :=
  l.takeWhile (fun c => !wsMatch c)

/-- A completer object of optcomplete.py: given the current word prefix
and suffix it produces the candidate completion strings.  The file-system
and working-directory inputs of the concrete completer classes are folded
into the function. -/
abbrev Completer : Type :=
  List Char → List Char → List (List Char)

/-- The slice of an optparse option object read by `autocomplete`
(optcomplete.py lines 310-322): its `nargs`, and whether a `completer`
attribute was attached (with the attached completer). -/
structure OptInfo where
  nargs : Nat
  hasCompleter : Bool
  completer : Completer

/-- The slice of an optparse parser read by `autocomplete`: the keys of
`_short_opt` and `_long_opt` (lines 330-331) and the `get_option` lookup
(line 310, `none` when the parser does not know the option string). -/
structure Parser where
  shortOpts : List (List Char)
  longOpts : List (List Char)
  getOption : List Char → Option OptInfo

/-- The process environment and file system as observed by `autocomplete`:
whether `OPTPARSE_AUTO_COMPLETE` is set (line 239), the bash completion
protocol variables `COMP_WORDS` (already split), `COMP_LINE`, `COMP_POINT`,
`COMP_CWORD` (lines 259-262), and the current-directory listing returned by
`os.listdir` inside `AllCompleter`. -/
structure AcEnv where
  optAutoComplete : Bool
  compWords : List (List Char)
  compLine : List Char
  compPoint : Int
  compCword : Nat
  pwdFiles : List (List Char)

/-- How a call to `autocomplete` ends: a normal return to the caller (the
only path that neither prints nor exits), a process exit carrying the
printed completion list when one was printed before exiting, or an
unhandled exception propagating (the `IndexError` of `cwords[cword - 1]`
on an empty word list, which no handler catches). -/
inductive AcOutcome
  | returned
  | exited : Option (List (List Char)) → AcOutcome
  | raised
deriving DecidableEq

/-- Python list indexing `l[i]` with negative-index semantics, as an
`Option` (`none` is `IndexError`). -/
def pyIndex (l : List (List Char)) (i : Int) : Option (List Char) :=
  if 0 ≤ i then l[i.toNat]?
  else if 0 ≤ (l.length : Int) + i then l[((l.length : Int) + i).toNat]?
  else none

/-- Split a word at its last `'='`, returning the parts before and after;
`none` when the word has no `'='`.  This is the greedy backtracking of the
`(--.*)=(.*)` regex after its `--` anchor. -/
def splitAtLastEq : List Char → Option (List Char × List Char)
  | [] => none
  | c :: cs =>
    match splitAtLastEq cs with
    | some ab => some (c :: ab.1, ab.2)
    | none => if c = '=' then some ([], cs) else none

/-- Embedding of `re.search('(--.*)=(.*)', word)` at optcomplete.py
line 303: find the leftmost position where `--` occurs with an `'='`
somewhere after it; group 1 is everything from that position up to the last
`'='`, group 2 the rest. -/
def searchLongOptEq : List Char → Option (List Char × List Char)
  | [] => none
  | c :: rest =>
    match c, rest with
    | '-', '-' :: rest2 =>
      (match splitAtLastEq rest2 with
       | some ab => some ('-' :: '-' :: ab.1, ab.2)
       | none => searchLongOptEq rest)
    | _, _ => searchLongOptEq rest

/-- The `AllCompleter` default (optcomplete.py lines 110-115): list all
files of the current directory, ignoring the word being completed. -/
def allCompleter (env : AcEnv) : Completer :=
  fun _ _ => env.pwdFiles

/-- The previous-word computation of `autocomplete` (lines 297-307):
`prev` together with the possibly replaced word prefix.  When the current
word looks like `--opt=val`, `prev` is `--opt` and the prefix becomes
`val`; otherwise `prev` is `cwords[cword - 1]` (a Python negative-index
lookup that raises `IndexError` on an empty word list, hence the
`Option`). -/
def prevWord (env : AcEnv) : Option (List Char) × List Char :=
  let pre0 := (extract_word env.compLine env.compPoint).1
  let mo : Option (List Char × List Char) :=
    if env.compCword < env.compWords.length then
      searchLongOptEq (env.compWords.getD env.compCword [])
    else none
  match mo with
  | some ab => (some ab.1, ab.2)
  | none => (pyIndex env.compWords ((env.compCword : Int) - 1), pre0)

/-- Result of the option inspection at optcomplete.py lines 309-322:
either the `raise SystemExit` for an option that carries a completer but
takes no argument, or the `optarg` flag together with the completer left in
force (the option completer, the option-argument default, or the argument
completer). -/
inductive OptDecision
  | sysExit
  | ok : Bool → Completer → OptDecision

/-- The option inspection of `autocomplete` (lines 309-322) on the
previous word `prev`: only a word that is non-empty and starts with `'-'`
is looked up; an option taking arguments selects its attached completer or
the option-argument default; an option taking no arguments but carrying a
completer raises `SystemExit`. -/
def optionDecision (p : Parser) (argC optC : Completer) (prev : List Char) : OptDecision :=
  if prev.head? = some '-' then
    match p.getOption prev with
    | some o =>
      if 0 < o.nargs then
        OptDecision.ok true (if o.hasCompleter then o.completer else optC)
      else if o.hasCompleter then OptDecision.sysExit
      else OptDecision.ok false argC
    | none => OptDecision.ok false argC
  else OptDecision.ok false argC

/-- The completion-list construction of `autocomplete` (lines 326-353):
option names are offered unless completing an option argument or the word
prefix rules them out, the completer contributes unless the prefix starts
with `'-'`, and a non-empty prefix filters the candidates. -/
def buildCompletions (p : Parser) (optarg : Bool) (completer : Completer)
    (pre suf : List Char) : List (List Char) :=
  let c1 : List (List Char) :=
    if optarg = false ∧ (pre = [] ∨ pre.head? = some '-') then
      p.shortOpts ++ p.longOpts
    else []
  let c2 : List (List Char) :=
    if pre = [] ∨ ¬ pre.head? = some '-' then completer pre suf else []
  let cs := c1 ++ c2
  if pre = [] then cs else cs.filter (fun x => pre.isPrefixOf x)

/-- The main completion path of `autocomplete` (lines 288-377), reached
once any subcommand dispatch is resolved: extract the enclosed word, look
at the previous word, build and print the completion list, and exit via
`sys.exit(1)`.  The `SystemExit` of lines 320-322 exits without printing. -/
def autocompleteMain (env : AcEnv) (p : Parser) (argC optC : Completer) : AcOutcome :=
  let pw := prevWord env
  let suf := (extract_word env.compLine env.compPoint).2
  match pw.1 with
  | none => AcOutcome.raised
  | some prev =>
    match optionDecision p argC optC prev with
    | OptDecision.sysExit => AcOutcome.exited none
    | OptDecision.ok optarg completer =>
      AcOutcome.exited (some (buildCompletions p optarg completer pw.2 suf))

/-- The value `guess_first_nonoption` can hand back for subcommand
dispatch (lines 267-286): a (parser, completer) list or tuple; an object
with an `autocomplete` method, which per the `CmdComplete` base class
(lines 418-434) re-enters `autocomplete` with its own parser and optional
completer member; or an object with neither, on which `sys.exit(1)` is
called. -/
inductive SubValue
  | pc : Parser → Option Completer → SubValue
  | obj : Parser → Option Completer → SubValue
  | noAuto : SubValue

/-- Shallow embedding of `autocomplete(parser, arg_completer=None,
opt_completer=None, subcmd_completer=None, subcommands=None)`
(optcomplete.py lines 208-377).  `hasSub` is the truthiness of the
`subcommands` dictionary; `guessed` is the oracle for
`guess_first_nonoption` (whose internals call the external optparse
`parse_args`).  The recursive `return autocomplete(parser, completer)`
calls of the subcommand branch pass no subcommands, so they proceed to the
main path with the chosen argument completer and a fresh `AllCompleter`
option-argument default. -/
def autocomplete (env : AcEnv) (p : Parser) (argC optC subC : Option Completer)
    (hasSub : Bool) (guessed : Option SubValue) : AcOutcome :=
  if env.optAutoComplete = false then AcOutcome.returned
  else
    let dflt := allCompleter env
    let argCv := argC.getD dflt
    let optCv := optC.getD dflt
    let subCv := subC.getD argCv
    if hasSub then
      match guessed with
      | some (SubValue.pc p2 c2) => autocompleteMain env p2 (c2.getD subCv) (allCompleter env)
      | some (SubValue.obj p2 c2) => autocompleteMain env p2 (c2.getD subCv) (allCompleter env)
      | some SubValue.noAuto => AcOutcome.exited none
      | none => autocompleteMain env p argCv optCv
    else autocompleteMain env p argCv optCv

/-- Concrete input refuting C10: the completion request is for the word
after option `-x`, and `-x` takes no argument but carries a completer, so
the `raise SystemExit` at optcomplete.py line 320 fires before anything is
printed.  `COMP_LINE` is `"p -x "` with the cursor at its end. -/
def acEnvC10 : AcEnv :=
  { optAutoComplete := true
    compWords := [['p'], ['-', 'x'], []]
    compLine := ['p', ' ', '-', 'x', ' ']
    compPoint := 5
    compCword := 2
    pwdFiles := [] }

/-- Parser for the C10 counterexample: `-x` takes no argument but has a
completer attached. -/
def acParserC10 : Parser :=
  { shortOpts := [['-', 'x']]
    longOpts := []
    getOption := fun w =>
      if w = ['-', 'x'] then some { nargs := 0, hasCompleter := true, completer := fun _ _ => [] }
      else none }

/-- Environment with `OPTPARSE_AUTO_COMPLETE` unset. -/
def acEnvOff : AcEnv :=
  { optAutoComplete := false
    compWords := [['p']]
    compLine := ['p']
    compPoint := 1
    compCword := 0
    pwdFiles := [] }

/-- Environment with `OPTPARSE_AUTO_COMPLETE` set and a well-formed bash
completion request. -/
def acEnvOn : AcEnv :=
  { optAutoComplete := true
    compWords := [['p']]
    compLine := ['p']
    compPoint := 1
    compCword := 0
    pwdFiles := [] }

/-- A parser knowing no options. -/
def acParserNil : Parser :=
  { shortOpts := []
    longOpts := []
    getOption := fun _ => none }

/-- Degenerate environment with the variable set but `COMP_WORDS` empty
(`"".split()` is the empty list), on which the `cwords[cword - 1]` lookup
at optcomplete.py line 307 raises `IndexError`. -/
def acEnvRaise : AcEnv :=
  { optAutoComplete := true
    compWords := []
    compLine := []
    compPoint := 0
    compCword := 0
    pwdFiles := [] }

theorem loopRun_mem (env : Env) :
    ∀ (fuel i : Nat) (tr : List Event) (exn : Option Exn),
      loopRun env fuel i = some (tr, exn) →
      ∀ e ∈ tr, e = Event.joinCall ∨ e = Event.sleep ∨ e = Event.removeStoppedThreads := by
  intro fuel
  induction fuel with
  | zero => intro i tr exn h; simp [loopRun] at h
  | succ n ih =>
    intro i tr exn h
    rw [loopRun] at h
    cases hj : env.joinResult i <;> rw [hj] at h
    · simp only [Option.some.injEq, Prod.mk.injEq] at h
      obtain ⟨rfl, _⟩ := h
      intro e he; simp at he; simp [he]
    · by_cases ht : env.threadsRemain i
      · rw [if_pos ht] at h
        obtain ⟨⟨tr0, ex0⟩, h0, heq⟩ := Option.map_eq_some'.mp h
        simp only [Prod.mk.injEq] at heq
        obtain ⟨rfl, rfl⟩ := heq
        intro e he
        simp only [List.mem_cons] at he
        rcases he with rfl | rfl | rfl | he
        · exact Or.inl rfl
        · exact Or.inr (Or.inl rfl)
        · exact Or.inr (Or.inr rfl)
        · exact ih (i + 1) tr0 ex0 h0 e he
      · rw [if_neg ht] at h
        simp only [Option.some.injEq, Prod.mk.injEq] at h
        obtain ⟨rfl, _⟩ := h
        intro e he; simp at he
        rcases he with rfl | rfl | rfl
        · exact Or.inl rfl
        · exact Or.inr (Or.inl rfl)
        · exact Or.inr (Or.inr rfl)
    · simp only [Option.some.injEq, Prod.mk.injEq] at h
      obtain ⟨rfl, _⟩ := h
      intro e he; simp at he; simp [he]
    · simp only [Option.some.injEq, Prod.mk.injEq] at h
      obtain ⟨rfl, _⟩ := h
      intro e he; simp at he; simp [he]

theorem loopRun_count_zero (env : Env) (fuel i : Nat) (tr : List Event) (exn : Option Exn)
    (h : loopRun env fuel i = some (tr, exn)) (e : Event)
    (h1 : e ≠ Event.joinCall) (h2 : e ≠ Event.sleep) (h3 : e ≠ Event.removeStoppedThreads) :
    tr.count e = 0 := by
  refine List.count_eq_zero.mpr (fun hm => ?_)
  rcases loopRun_mem env fuel i tr exn h e hm with h' | h' | h'
  · exact h1 h'
  · exact h2 h'
  · exact h3 h'

/-- C1: for every terminating run of `check_urls` — normal drain,
all-workers-dead break-out, `KeyboardInterrupt`, or any other unexpected
exception — `aggregate.finish()` appears exactly once in the trace. -/
theorem check_urls_finish_exactly_once (env : Env) (fuel : Nat)
    (tr : List Event) (exn : Option Exn)
    (h : check_urls env fuel = some (tr, exn)) : tr.count Event.finish = 1 := by
  obtain ⟨⟨tr0, ex0⟩, h0, heq⟩ := Option.map_eq_some'.mp h
  simp only [Prod.mk.injEq] at heq
  obtain ⟨rfl, _⟩ := heq
  have hc0 := loopRun_count_zero env fuel 0 tr0 ex0 h0 Event.finish
    (by decide) (by decide) (by decide)
  simp only [List.count_append, hc0]
  cases hE : env.emptyAtStart <;> cases ex0 with
  | none => simp [preEvents, hE, handlerEvents]
  | some e => cases e <;> simp [preEvents, hE, handlerEvents]

/-- Witness for C1 at a concrete normal run. -/
theorem check_urls_finish_exactly_once_witness :
    ([Event.startLogOutput, Event.startThreads, Event.joinCall,
      Event.finish, Event.endLogOutput] : List Event).count Event.finish = 1 :=
  check_urls_finish_exactly_once envOkRun 1
    [Event.startLogOutput, Event.startThreads, Event.joinCall,
     Event.finish, Event.endLogOutput] none (by decide)

/-- C2: every terminating run of `check_urls` emits the start log marker
exactly once, as the very first event, and the end log marker exactly once,
as the very last event, immediately after `finish`; this holds on every
path, including keyboard interrupt and internal error. -/
theorem check_urls_log_markers (env : Env) (fuel : Nat)
    (tr : List Event) (exn : Option Exn)
    (h : check_urls env fuel = some (tr, exn)) :
    tr.count Event.startLogOutput = 1 ∧ tr.count Event.endLogOutput = 1 ∧
    tr.head? = some Event.startLogOutput ∧
    ∃ front, tr = front ++ [Event.finish, Event.endLogOutput] := by
  obtain ⟨⟨tr0, ex0⟩, h0, heq⟩ := Option.map_eq_some'.mp h
  simp only [Prod.mk.injEq] at heq
  obtain ⟨rfl, _⟩ := heq
  have hs := loopRun_count_zero env fuel 0 tr0 ex0 h0 Event.startLogOutput
    (by decide) (by decide) (by decide)
  have he := loopRun_count_zero env fuel 0 tr0 ex0 h0 Event.endLogOutput
    (by decide) (by decide) (by decide)
  refine ⟨?_, ?_, ?_, ?_⟩
  · simp only [List.count_append, hs]
    cases hE : env.emptyAtStart <;> cases ex0 with
    | none => simp [preEvents, hE, handlerEvents]
    | some e => cases e <;> simp [preEvents, hE, handlerEvents]
  · simp only [List.count_append, he]
    cases hE : env.emptyAtStart <;> cases ex0 with
    | none => simp [preEvents, hE, handlerEvents]
    | some e => cases e <;> simp [preEvents, hE, handlerEvents]
  · simp [preEvents]
  · exact ⟨preEvents env ++ tr0 ++ handlerEvents ex0, by simp [List.append_assoc]⟩

/-- Witness for C2 at a concrete interrupted run. -/
theorem check_urls_log_markers_witness :
    ([Event.startLogOutput, Event.startThreads, Event.joinCall, Event.warn,
      Event.abort, Event.finish, Event.endLogOutput] : List Event).count
        Event.startLogOutput = 1 ∧
    ([Event.startLogOutput, Event.startThreads, Event.joinCall, Event.warn,
      Event.abort, Event.finish, Event.endLogOutput] : List Event).count
        Event.endLogOutput = 1 ∧
    ([Event.startLogOutput, Event.startThreads, Event.joinCall, Event.warn,
      Event.abort, Event.finish, Event.endLogOutput] : List Event).head? =
        some Event.startLogOutput ∧
    ∃ front, ([Event.startLogOutput, Event.startThreads, Event.joinCall, Event.warn,
      Event.abort, Event.finish, Event.endLogOutput] : List Event) =
        front ++ [Event.finish, Event.endLogOutput] :=
  check_urls_log_markers envInt 1
    [Event.startLogOutput, Event.startThreads, Event.joinCall, Event.warn,
     Event.abort, Event.finish, Event.endLogOutput] none (by decide)

/-- C3 counterexample: with an unexpected exception raised at the first
`join`, `check_urls` reports it (`internalError`), calls `abort()`, then
still runs `finish()` and `end_log_output()` and returns normally — the
second component `none` of the result records that no exception propagates
out of `check_urls`, contradicting the claim that the exception propagates
to the caller (the bare `except:` at line 56 has no `raise`). -/
theorem check_urls_swallows_internal_error_cex :
    check_urls envErr 1 =
      some ([Event.startLogOutput, Event.startThreads, Event.joinCall,
             Event.internalError, Event.abort, Event.finish, Event.endLogOutput],
            (none : Option Exn)) := by decide

/-- C3 (amended): any unexpected exception other than `KeyboardInterrupt`
escaping the drive loop is reported via `console.internal_error()` and
causes `aggregate.abort()` to be invoked, after which `check_urls` proceeds
through `finish()` and `end_log_output()` and returns normally; the
exception does not propagate to the caller. -/
theorem check_urls_internal_error_amended (env : Env) (fuel : Nat)
    (tr0 tr : List Event) (exn : Option Exn)
    (h0 : loopRun env fuel 0 = some (tr0, some Exn.otherError))
    (h : check_urls env fuel = some (tr, exn)) :
    exn = none ∧
    tr = preEvents env ++ tr0 ++
      [Event.internalError, Event.abort, Event.finish, Event.endLogOutput] := by
  unfold check_urls at h
  rw [h0] at h
  simp only [Option.map_some', handlerEvents, Option.some.injEq, Prod.mk.injEq] at h
  obtain ⟨htr, hexn⟩ := h
  exact ⟨hexn.symm, by rw [← htr]; simp [List.append_assoc]⟩

/-- Witness for the amended C3 at a concrete erroring run. -/
theorem check_urls_internal_error_amended_witness :
    (none : Option Exn) = none ∧
    ([Event.startLogOutput, Event.startThreads, Event.joinCall,
      Event.internalError, Event.abort, Event.finish, Event.endLogOutput] : List Event) =
      preEvents envErr ++ [Event.joinCall] ++
        [Event.internalError, Event.abort, Event.finish, Event.endLogOutput] :=
  check_urls_internal_error_amended envErr 1 [Event.joinCall]
    [Event.startLogOutput, Event.startThreads, Event.joinCall,
     Event.internalError, Event.abort, Event.finish, Event.endLogOutput] none
    (by decide) (by decide)

theorem loopRun_isSome (env : Env) :
    ∀ (n i : Nat), (∀ j, j < n → loopContinues env (i + j)) →
      ¬ loopContinues env (i + n) → (loopRun env (n + 1) i).isSome := by
  intro n
  induction n with
  | zero =>
    intro i _ hstop
    rw [loopRun]
    cases hj : env.joinResult i
    · simp
    · have ht : env.threadsRemain i = false := by
        by_contra hcon
        exact hstop ⟨by simpa using hj, by simpa using Bool.not_eq_false _ |>.mp hcon⟩
      rw [ht]
      simp
    · simp
    · simp
  | succ n ih =>
    intro i hlt hstop
    have hc : loopContinues env i := by
      have := hlt 0 (by omega)
      simpa using this
    obtain ⟨hj, ht⟩ := hc
    rw [loopRun, hj, if_pos ht]
    rw [Option.isSome_map']
    apply ih (i + 1)
    · intro j hjn
      have := hlt (j + 1) (by omega)
      rwa [show i + (j + 1) = i + 1 + j by omega] at this
    · rwa [show i + 1 + n = i + (n + 1) by omega]

/-- C4: the drive loop of `check_urls` exits as soon as an iteration is
reached where `join` does not time out with live workers remaining: if the
loop continued for the first n iterations (each a `Timeout` with threads
still alive) and iteration n either returns from `join`, times out with no
threads remaining after `remove_stopped_threads`, or raises, then the run
terminates within n+1 join calls and proceeds to `finish` — so the loop
never blocks forever once all workers have stopped. -/
theorem check_urls_drive_loop_exits (env : Env) (n : Nat)
    (hcont : ∀ j, j < n → loopContinues env j)
    (hstop : ¬ loopContinues env n) :
    ∃ tr exn, check_urls env (n + 1) = some (tr, exn) ∧ Event.finish ∈ tr := by
  have hs := loopRun_isSome env n 0 (by simpa using hcont) (by simpa using hstop)
  obtain ⟨⟨tr0, ex0⟩, h0⟩ := Option.isSome_iff_exists.mp hs
  refine ⟨preEvents env ++ tr0 ++ handlerEvents ex0 ++ [Event.finish, Event.endLogOutput],
    none, ?_, ?_⟩
  · unfold check_urls
    rw [h0]
    simp
  · simp

/-- Witness for C4: all workers dead at the very first timeout. -/
theorem check_urls_drive_loop_exits_witness :
    ∃ tr exn, check_urls envDead (0 + 1) = some (tr, exn) ∧ Event.finish ∈ tr :=
  check_urls_drive_loop_exits envDead 0 (fun j hj => absurd hj (by omega))
    (fun hc => by simp [loopContinues, envDead] at hc)

/-- C5: in any terminating run of `check_urls`, `start_threads()` is called
if and only if the url queue was non-empty at run start; and when the queue
is empty (so that, per the specified queue semantics, the first `join`
returns immediately with outstanding count zero) the run is the no-op trace
`[start_log_output, join, finish, end_log_output]`. -/
theorem check_urls_start_threads_iff (env : Env) (fuel : Nat)
    (tr : List Event) (exn : Option Exn)
    (h : check_urls env fuel = some (tr, exn)) :
    (Event.startThreads ∈ tr ↔ env.emptyAtStart = false) ∧
    (env.emptyAtStart = true → env.joinResult 0 = JoinResult.ok →
      tr = [Event.startLogOutput, Event.joinCall, Event.finish, Event.endLogOutput]) := by
  obtain ⟨⟨tr0, ex0⟩, h0, heq⟩ := Option.map_eq_some'.mp h
  simp only [Prod.mk.injEq] at heq
  obtain ⟨rfl, _⟩ := heq
  constructor
  · have hloop : Event.startThreads ∉ tr0 := by
      intro hm
      rcases loopRun_mem env fuel 0 tr0 ex0 h0 _ hm with h' | h' | h' <;> simp at h'
    have hhand : Event.startThreads ∉ handlerEvents ex0 := by
      cases ex0 with
      | none => simp [handlerEvents]
      | some e => cases e <;> simp [handlerEvents]
    cases hE : env.emptyAtStart
    · simp [preEvents, hE, hloop, hhand]
    · simp [preEvents, hE, hloop, hhand]
  · intro hE hj
    cases fuel with
    | zero => simp [loopRun] at h0
    | succ m =>
      rw [loopRun, hj] at h0
      simp only [Option.some.injEq, Prod.mk.injEq] at h0
      obtain ⟨rfl, rfl⟩ := h0
      simp [preEvents, hE, handlerEvents]

/-- Witness for C5 at a concrete empty-queue no-op run. -/
theorem check_urls_start_threads_iff_witness :
    (Event.startThreads ∈
        ([Event.startLogOutput, Event.joinCall, Event.finish, Event.endLogOutput] : List Event) ↔
      envEmptyOk.emptyAtStart = false) ∧
    (envEmptyOk.emptyAtStart = true → envEmptyOk.joinResult 0 = JoinResult.ok →
      ([Event.startLogOutput, Event.joinCall, Event.finish, Event.endLogOutput] : List Event) =
        [Event.startLogOutput, Event.joinCall, Event.finish, Event.endLogOutput]) :=
  check_urls_start_threads_iff envEmptyOk 1
    [Event.startLogOutput, Event.joinCall, Event.finish, Event.endLogOutput] none (by decide)

/-- C6: if a `KeyboardInterrupt` escapes the drive loop, `check_urls` logs
a warning, invokes `aggregate.abort()`, then still proceeds through
`finish()` and `end_log_output()`, and the interrupt is never propagated to
the caller (the result exception component is `none`). -/
theorem check_urls_keyboard_interrupt (env : Env) (fuel : Nat)
    (tr0 tr : List Event) (exn : Option Exn)
    (h0 : loopRun env fuel 0 = some (tr0, some Exn.keyboardInterrupt))
    (h : check_urls env fuel = some (tr, exn)) :
    exn = none ∧
    tr = preEvents env ++ tr0 ++
      [Event.warn, Event.abort, Event.finish, Event.endLogOutput] := by
  unfold check_urls at h
  rw [h0] at h
  simp only [Option.map_some', handlerEvents, Option.some.injEq, Prod.mk.injEq] at h
  obtain ⟨htr, hexn⟩ := h
  exact ⟨hexn.symm, by rw [← htr]; simp [List.append_assoc]⟩

/-- Witness for C6 at a concrete interrupted run. -/
theorem check_urls_keyboard_interrupt_witness :
    (none : Option Exn) = none ∧
    ([Event.startLogOutput, Event.startThreads, Event.joinCall, Event.warn,
      Event.abort, Event.finish, Event.endLogOutput] : List Event) =
      preEvents envInt ++ [Event.joinCall] ++
        [Event.warn, Event.abort, Event.finish, Event.endLogOutput] :=
  check_urls_keyboard_interrupt envInt 1 [Event.joinCall]
    [Event.startLogOutput, Event.startThreads, Event.joinCall, Event.warn,
     Event.abort, Event.finish, Event.endLogOutput] none (by decide) (by decide)

/-- C7: two successive calls to `get_aggregate` (any configurations)
construct pairwise-distinct fresh `UrlQueue`, `ConnectionPool`, `CookieJar`
and `RobotsTxt` instances: all eight object identities differ, so no
structure of one run aliases a structure of the other. -/
theorem get_aggregate_fresh_instances (c1 c2 : Config) (h0 : Nat)
    (a1 a2 : Aggregate) (n1 n2 : Nat)
    (h1 : get_aggregate c1 h0 = (a1, n1)) (h2 : get_aggregate c2 n1 = (a2, n2)) :
    List.Pairwise (fun x y => x ≠ y)
      [a1.urlqueue, a1.connections, a1.cookies, a1.robots_txt,
       a2.urlqueue, a2.connections, a2.cookies, a2.robots_txt] := by
  simp only [get_aggregate, Prod.mk.injEq] at h1 h2
  obtain ⟨rfl, rfl⟩ := h1
  obtain ⟨rfl, rfl⟩ := h2
  simp [List.pairwise_cons]
  omega

/-- Witness for C7 at allocation counter 0. -/
theorem get_aggregate_fresh_instances_witness :
    List.Pairwise (fun x y => x ≠ y) [0, 1, 2, 3, 4, 5, 6, 7] := by
  have h := get_aggregate_fresh_instances { wait := true } { wait := false } 0
    { config := { wait := true }, urlqueue := 0, connections := 1, cookies := 2, robots_txt := 3 }
    { config := { wait := false }, urlqueue := 4, connections := 5, cookies := 6, robots_txt := 7 }
    4 8 (by decide) (by decide)
  exact h

/-- C8: for every non-empty argument, `get_link_pat` negates exactly when
the argument begins with `'!'`, compiles the argument with the leading
`'!'` stripped in that case and unchanged otherwise, and stores the given
`strict` flag, which defaults to `false`. -/
theorem get_link_pat_spec (arg : List Char) (strict : Bool) (hne : arg ≠ []) :
    ((get_link_pat arg strict).negate = true ↔ arg.head? = some '!') ∧
    (get_link_pat arg strict).pattern =
      re_compile (if arg.head? = some '!' then arg.drop 1 else arg) ∧
    (get_link_pat arg strict).strict = strict ∧
    (get_link_pat_default arg).strict = false := by
  cases arg with
  | nil => exact absurd rfl hne
  | cons c cs =>
    by_cases hc : c = '!'
    · subst hc
      simp [get_link_pat, get_link_pat_default, re_compile]
    · have ht : ¬ ((c :: cs).take 1 = ['!']) := by
        simp [List.take, hc]
      simp [get_link_pat, get_link_pat_default, ht, re_compile, hc]

/-- Witness for C8 on the argument `"!a"` with `strict = true`. -/
theorem get_link_pat_spec_witness :
    ((get_link_pat ['!', 'a'] true).negate = true ↔ (['!', 'a'] : List Char).head? = some '!') ∧
    (get_link_pat ['!', 'a'] true).pattern =
      re_compile (if (['!', 'a'] : List Char).head? = some '!'
                  then (['!', 'a'] : List Char).drop 1 else ['!', 'a']) ∧
    (get_link_pat ['!', 'a'] true).strict = true ∧
    (get_link_pat_default ['!', 'a']).strict = false :=
  get_link_pat_spec ['!', 'a'] true (by decide)

theorem scanSufAux_eq (l : List Char) :
    ∀ i : Nat, scanSufAux l i = i + (l.takeWhile (fun c => !wsMatch c)).length := by
  induction l with
  | nil => intro i; simp [scanSufAux]
  | cons c cs ih =>
    intro i
    cases hc : wsMatch c
    · simp [scanSufAux, hc, ih (i + 1), List.takeWhile_cons]
      omega
    · simp [scanSufAux, hc, List.takeWhile_cons]

theorem scanPreAux_eq (r : List Char) :
    ∀ k : Nat, k ≤ r.length →
      scanPreAux r k = k - (r.takeWhile (fun c => !wsMatch c)).length := by
  induction r with
  | nil => intro k hk; simp at hk; simp [scanPreAux, hk]
  | cons c cs ih =>
    intro k hk
    simp only [List.length_cons] at hk
    cases hc : wsMatch c
    · have h1 : k - 1 ≤ cs.length := by omega
      simp [scanPreAux, hc, ih (k - 1) h1, List.takeWhile_cons]
      omega
    · simp [scanPreAux, hc, List.takeWhile_cons]

theorem take_takeWhile_len {α : Type} (q : α → Bool) :
    ∀ l : List α, l.take ((l.takeWhile q).length) = l.takeWhile q := by
  intro l
  induction l with
  | nil => simp
  | cons c cs ih =>
    cases hc : q c
    · simp [List.takeWhile_cons, hc]
    · simp [List.takeWhile_cons, hc, List.take, ih]

theorem drop_length_sub_of_append {α : Type} (A B l : List α) (h : A ++ B = l) :
    l.drop (l.length - B.length) = B := by
  subst h
  simp only [List.length_append, Nat.add_sub_cancel]
  exact List.drop_left A B

theorem drop_sub_reverse_takeWhile (q : Char → Bool) (l : List Char) :
    l.drop (l.length - (l.reverse.takeWhile q).length) = (l.reverse.takeWhile q).reverse := by
  have hA : (l.reverse.dropWhile q).reverse ++ (l.reverse.takeWhile q).reverse = l := by
    rw [← List.reverse_append, List.takeWhile_append_dropWhile q l.reverse,
      List.reverse_reverse]
  have hlen : (l.reverse.takeWhile q).length = ((l.reverse.takeWhile q).reverse).length := by
    simp
  rw [hlen]
  exact drop_length_sub_of_append _ _ _ hA

/-- C9: `extract_word(line, point)` returns the pair of empty strings when
`point` is out of range (`point < 0` or `point > len(line)`); otherwise it
returns the maximal space/tab-free suffix of `line[0:point]` paired with
the maximal space/tab-free prefix of `line[point:]`, so the character under
the cursor starts the suffix of the enclosing word. -/
theorem extract_word_spec (line : List Char) (point : Int) :
    ((point < 0 ∨ (line.length : Int) < point) → extract_word line point = ([], [])) ∧
    (0 ≤ point → point ≤ (line.length : Int) →
      extract_word line point =
        (wordSuffixBefore (line.take point.toNat), wordPrefixAfter (line.drop point.toNat))) := by
  constructor
  · intro hout
    simp [extract_word, hout]
  · intro h0 h1
    have hcond : ¬ (point < 0 ∨ (line.length : Int) < point) := by omega
    have hp : point.toNat ≤ line.length := by omega
    have hlen : (line.take point.toNat).length = point.toNat := by
      simp [List.length_take, Nat.min_eq_left hp]
    have hrevlen : point.toNat ≤ ((line.take point.toNat).reverse).length := by
      simp [hlen]
    unfold extract_word
    rw [if_neg hcond]
    have hgen : ∀ l : List Char, l.length = point.toNat →
        l.drop (scanPreAux l.reverse point.toNat) = wordSuffixBefore l := by
      intro l hl
      rw [scanPreAux_eq _ _ (by simp [hl])]
      unfold wordSuffixBefore
      rw [← hl]
      exact drop_sub_reverse_takeWhile _ _
    have hA : (line.take point.toNat).drop
        (scanPreAux ((line.take point.toNat).reverse) point.toNat) =
        wordSuffixBefore (line.take point.toNat) := hgen (line.take point.toNat) hlen
    have hB : (line.take (scanSufAux (line.drop point.toNat) point.toNat)).drop point.toNat =
        wordPrefixAfter (line.drop point.toNat) := by
      rw [scanSufAux_eq]
      rw [List.drop_take]
      simp only [Nat.add_sub_cancel_left]
      exact take_takeWhile_len _ _
    simp only []
    rw [hA, hB]

/-- Witness for C9 on the line `"ab cd"` with the cursor at index 4. -/
theorem extract_word_spec_witness :
    extract_word ['a', 'b', ' ', 'c', 'd'] 4 =
      (wordSuffixBefore ((['a', 'b', ' ', 'c', 'd'] : List Char).take (4 : Int).toNat),
       wordPrefixAfter ((['a', 'b', ' ', 'c', 'd'] : List Char).drop (4 : Int).toNat)) :=
  (extract_word_spec ['a', 'b', ' ', 'c', 'd'] 4).2 (by decide) (by decide)

theorem pyIndex_isSome (l : List (List Char)) (cword : Nat)
    (hne : l ≠ []) (hle : cword ≤ l.length) :
    ∃ w, pyIndex l ((cword : Int) - 1) = some w := by
  have hpos : 0 < l.length := List.length_pos.mpr hne
  unfold pyIndex
  by_cases h0 : (0 : Int) ≤ (cword : Int) - 1
  · rw [if_pos h0]
    have hlt : ((cword : Int) - 1).toNat < l.length := by omega
    exact ⟨l[((cword : Int) - 1).toNat], List.getElem?_eq_getElem hlt⟩
  · rw [if_neg h0]
    have hposint : (0 : Int) ≤ (l.length : Int) + ((cword : Int) - 1) := by omega
    rw [if_pos hposint]
    have hlt : ((l.length : Int) + ((cword : Int) - 1)).toNat < l.length := by omega
    exact ⟨l[((l.length : Int) + ((cword : Int) - 1)).toNat], List.getElem?_eq_getElem hlt⟩

theorem pyIndex_none (l : List (List Char)) (cword : Nat)
    (h : l = [] ∨ l.length < cword) :
    pyIndex l ((cword : Int) - 1) = none := by
  unfold pyIndex
  by_cases h0 : (0 : Int) ≤ (cword : Int) - 1
  · rw [if_pos h0]
    apply List.getElem?_eq_none
    rcases h with rfl | hlt
    · simp
    · omega
  · rw [if_neg h0]
    rcases h with rfl | hlt
    · have hneg : ¬ (0 : Int) ≤ ((([] : List (List Char)).length : Int) + ((cword : Int) - 1)) := by
        simp only [List.length_nil, Nat.cast_zero]
        omega
      rw [if_neg hneg]
    · exact absurd hlt (by omega)

theorem autocompleteMain_eq (env : AcEnv) (p : Parser) (argC optC : Completer)
    (prev pre : List Char) (hpw : prevWord env = (some prev, pre)) :
    autocompleteMain env p argC optC =
      match optionDecision p argC optC prev with
      | OptDecision.sysExit => AcOutcome.exited none
      | OptDecision.ok optarg completer =>
        AcOutcome.exited (some (buildCompletions p optarg completer pre
          (extract_word env.compLine env.compPoint).2)) := by
  unfold autocompleteMain
  rw [hpw]

theorem prevWord_isSome (env : AcEnv) (hne : env.compWords ≠ [])
    (hle : env.compCword ≤ env.compWords.length) :
    ∃ prev pre, prevWord env = (some prev, pre) := by
  unfold prevWord
  cases hmo : (if env.compCword < env.compWords.length then
      searchLongOptEq (env.compWords.getD env.compCword []) else none) with
  | some ab => exact ⟨ab.1, ab.2, rfl⟩
  | none =>
    obtain ⟨w, hw⟩ := pyIndex_isSome env.compWords env.compCword hne hle
    refine ⟨w, (extract_word env.compLine env.compPoint).1, ?_⟩
    simp only [hw]

theorem prevWord_none_of_degenerate (env : AcEnv)
    (h : env.compWords = [] ∨ env.compWords.length < env.compCword) :
    prevWord env = (none, (extract_word env.compLine env.compPoint).1) := by
  have hif : ¬ env.compCword < env.compWords.length := by
    rcases h with h | h
    · simp [h]
    · omega
  unfold prevWord
  rw [if_neg hif]
  simp only [pyIndex_none env.compWords env.compCword h]

theorem autocompleteMain_exits (env : AcEnv) (p : Parser) (argC optC : Completer)
    (hne : env.compWords ≠ []) (hle : env.compCword ≤ env.compWords.length) :
    ∃ pr, autocompleteMain env p argC optC = AcOutcome.exited pr := by
  obtain ⟨prev, pre, hpw⟩ := prevWord_isSome env hne hle
  rw [autocompleteMain_eq env p argC optC prev pre hpw]
  cases optionDecision p argC optC prev with
  | sysExit => exact ⟨none, rfl⟩
  | ok optarg completer => exact ⟨_, rfl⟩

theorem autocompleteMain_raised_eq (env : AcEnv) (p : Parser) (argC optC : Completer)
    (pre : List Char) (hpw : prevWord env = (none, pre)) :
    autocompleteMain env p argC optC = AcOutcome.raised := by
  unfold autocompleteMain
  rw [hpw]

theorem autocompleteMain_raised (env : AcEnv) (p : Parser) (argC optC : Completer)
    (h : env.compWords = [] ∨ env.compWords.length < env.compCword) :
    autocompleteMain env p argC optC = AcOutcome.raised :=
  autocompleteMain_raised_eq env p argC optC _ (prevWord_none_of_degenerate env h)

theorem autocompleteMain_ne_returned (env : AcEnv) (p : Parser) (argC optC : Completer) :
    autocompleteMain env p argC optC ≠ AcOutcome.returned := by
  rcases hpw : prevWord env with ⟨po, pre⟩
  cases po with
  | none =>
    rw [autocompleteMain_raised_eq env p argC optC pre hpw]
    simp
  | some prev =>
    rw [autocompleteMain_eq env p argC optC prev pre hpw]
    cases optionDecision p argC optC prev <;> simp

theorem autocomplete_never_returns_of_set (env : AcEnv) (p : Parser)
    (argC optC subC : Option Completer) (hasSub : Bool) (guessed : Option SubValue)
    (hset : env.optAutoComplete = true) :
    autocomplete env p argC optC subC hasSub guessed ≠ AcOutcome.returned := by
  unfold autocomplete
  rw [hset]
  simp only [Bool.true_eq_false, if_false]
  cases hasSub with
  | false => exact autocompleteMain_ne_returned env p _ _
  | true =>
    cases guessed with
    | none => exact autocompleteMain_ne_returned env p _ _
    | some v =>
      cases v with
      | pc p2 c2 => exact autocompleteMain_ne_returned env p2 _ _
      | obj p2 c2 => exact autocompleteMain_ne_returned env p2 _ _
      | noAuto => simp

/-- C10 counterexample: with `OPTPARSE_AUTO_COMPLETE` set and the cursor
after option `-x`, which takes no argument but carries a completer,
`autocomplete` ends in a process exit without printing any completion list
(`exited none`), refuting the claim that every exit path prints the
completion list first. -/
theorem autocomplete_sysexit_without_print_cex :
    autocomplete acEnvC10 acParserC10 none none none false none = AcOutcome.exited none := by
  decide

/-- C10 (amended): `autocomplete` returns normally, with no effect, if and
only if `OPTPARSE_AUTO_COMPLETE` is unset — when the variable is set it
never returns normally to its caller.  Whenever `COMP_WORDS` is non-empty
and `COMP_CWORD` is at most the number of words — which covers every
request bash generates, including the ordinary
`COMP_CWORD = len(COMP_WORDS)` new-word completion left by `split()`
dropping the trailing empty word — every path ends in process exit, but
not every exit prints the completion list: the `SystemExit` for an option
carrying a completer but taking no arguments and the `sys.exit(1)` for a
subcommand object without completion support both exit before printing.
On the remaining degenerate inputs (`COMP_WORDS` empty, or `COMP_CWORD`
exceeding the word count) every path that consults the previous word
raises an uncaught `IndexError` from `cwords[cword - 1]` instead of
exiting. -/
theorem autocomplete_exit_amended (env : AcEnv) (p : Parser)
    (argC optC subC : Option Completer) (hasSub : Bool) (guessed : Option SubValue) :
    (autocomplete env p argC optC subC hasSub guessed = AcOutcome.returned ↔
      env.optAutoComplete = false) ∧
    (env.optAutoComplete = true → env.compWords ≠ [] →
      env.compCword ≤ env.compWords.length →
      ∃ pr, autocomplete env p argC optC subC hasSub guessed = AcOutcome.exited pr) ∧
    (env.optAutoComplete = true →
      (env.compWords = [] ∨ env.compWords.length < env.compCword) →
      ¬ (hasSub = true ∧ guessed = some SubValue.noAuto) →
      autocomplete env p argC optC subC hasSub guessed = AcOutcome.raised) := by
  refine ⟨⟨?_, ?_⟩, ?_, ?_⟩
  · intro hret
    by_contra hne
    have hset : env.optAutoComplete = true := by
      cases henv : env.optAutoComplete
      · exact absurd henv hne
      · rfl
    exact autocomplete_never_returns_of_set env p argC optC subC hasSub guessed hset hret
  · intro hoff
    simp [autocomplete, hoff]
  · intro hon hwne hle
    unfold autocomplete
    rw [hon]
    simp only [Bool.true_eq_false, if_false]
    cases hasSub with
    | false => exact autocompleteMain_exits env p _ _ hwne hle
    | true =>
      cases guessed with
      | none => exact autocompleteMain_exits env p _ _ hwne hle
      | some v =>
        cases v with
        | pc p2 c2 => exact autocompleteMain_exits env p2 _ _ hwne hle
        | obj p2 c2 => exact autocompleteMain_exits env p2 _ _ hwne hle
        | noAuto => exact ⟨none, rfl⟩
  · intro hon hbad hnsub
    unfold autocomplete
    rw [hon]
    simp only [Bool.true_eq_false, if_false]
    cases hasSub with
    | false => exact autocompleteMain_raised env p _ _ hbad
    | true =>
      cases guessed with
      | none => exact autocompleteMain_raised env p _ _ hbad
      | some v =>
        cases v with
        | pc p2 c2 => exact autocompleteMain_raised env p2 _ _ hbad
        | obj p2 c2 => exact autocompleteMain_raised env p2 _ _ hbad
        | noAuto => exact absurd ⟨rfl, rfl⟩ hnsub

/-- Witness for the amended C10: with the variable unset the call returns;
with it set on an ordinary request the call exits; with it set on an empty
`COMP_WORDS` the `IndexError` escapes. -/
theorem autocomplete_exit_amended_witness :
    autocomplete acEnvOff acParserNil none none none false none = AcOutcome.returned ∧
    (∃ pr, autocomplete acEnvOn acParserNil none none none false none = AcOutcome.exited pr) ∧
    autocomplete acEnvRaise acParserNil none none none false none = AcOutcome.raised :=
  ⟨(autocomplete_exit_amended acEnvOff acParserNil none none none false none).1.mpr rfl,
   (autocomplete_exit_amended acEnvOn acParserNil none none none false none).2.1 rfl
     (by decide) (by decide),
   (autocomplete_exit_amended acEnvRaise acParserNil none none none false none).2.2 rfl
     (Or.inl rfl) (by simp)⟩

end LinkCheck
